import Mathlib

/-!
Shallow embedding of the minignetserver session coordination engine
(src/minignetserver/src/main.rs and src/minignetcommon/src/lib.rs).

Rust `HashMap<K, V>` values are modelled as association lists
`List (K × V)` with first-match lookup; the server only ever inserts a
key that is absent (`join` checks `contains_key` first, the world map
uses `entry().or_insert()`), so the association lists never hold
duplicate keys on reachable states and the model coincides with the
hash map.  A Rust panic (the `.expect(..)` calls in `save_message` and
the `% 0` in `next_gamer`) is modelled as an explicit `Bool` flag (or a
`none` response at the dispatch layer): the connection handler unwinds
without replying, and the tokio mutex releases without poisoning, so
mutations performed before the panic persist — the model keeps them.
-/

abbrev GamerIdType := String
abbrev SessionIdType := String
abbrev Bytes := List Nat

/-- Association-list lookup, first match wins (models `HashMap::get`). -/
def alookup {α β : Type} [DecidableEq α] : List (α × β) → α → Option β
  | [], _ => none
  | (k, v) :: rest, a => if k = a then some v else alookup rest a

/-- Apply `f` to the value stored under key `a` (models mutation through
`HashMap::get_mut`). -/
def aupdate {α β : Type} [DecidableEq α] (f : β → β) (a : α) :
    List (α × β) → List (α × β)
  | [] => []
  | (k, v) :: rest => (if k = a then (k, f v) else (k, v)) :: aupdate f a rest

/-- Insert-or-replace under key `a` (models `HashMap::insert` /
`entry().or_insert()` write-back). -/
def ainsert {α β : Type} [DecidableEq α] : List (α × β) → α → β → List (α × β)
  | [], a, b => [(a, b)]
  | (k, v) :: rest, a, b => if k = a then (a, b) :: rest else (k, v) :: ainsert rest a b

/-- `struct UserUpdate { update: Vec<u8> }` -/
structure UserUpdate where
  update : Bytes
deriving DecidableEq, Repr

/-- `enum MessageAddress { All, One(GamerIdType) }` -/
inductive MessageAddress
  | All
  | One (gamer_id : GamerIdType)
deriving DecidableEq, Repr

/-- `struct Message { from, to, payload }` (`from` and `to` are Lean
keywords, hence `from_` and `to_`). -/
structure Message where
  from_ : GamerIdType
  to_ : MessageAddress
  payload : Bytes
deriving DecidableEq, Repr

/-- `struct UserState { updates: Vec<UserUpdate>, awaiting_messages: Vec<Message> }` -/
structure UserState where
  updates : List UserUpdate
  awaiting_messages : List Message
deriving DecidableEq, Repr

/-- `UserState::default()` -/
def UserState.default : UserState := ⟨[], []⟩

/-- `UserState::add_update` -/
def UserState.add_update (s : UserState) (update : Bytes) : UserState :=
  { s with updates := s.updates ++ [⟨update⟩] }

/-- `UserState::reset` — clears `updates` only; `awaiting_messages` is
untouched. -/
def UserState.reset (s : UserState) : UserState :=
  { s with updates := [] }

/-- `enum GameState { Join, Game, Over }` -/
inductive GameState
  | Join
  | Game
  | Over
deriving DecidableEq, Repr

/-- `struct GameSession` -/
structure GameSession where
  user_states : List (GamerIdType × UserState)
  sequence : List GamerIdType
  current_gamer_index : Nat
  state : GameState
deriving DecidableEq, Repr

/-- `GameSession::new` -/
def GameSession.new : GameSession :=
  { user_states := [], sequence := [], current_gamer_index := 0, state := GameState.Join }

/-- `GameSession::join` — no-op when the gamer already has a user state
(`contains_key`), otherwise inserts a default user state and appends to
`sequence`. -/
def GameSession.join (s : GameSession) (gamer_id : GamerIdType) : GameSession :=
  if (alookup s.user_states gamer_id).isSome then s
  else
    { s with
      user_states := s.user_states ++ [(gamer_id, UserState.default)]
      sequence := s.sequence ++ [gamer_id] }

/-- `GameSession::is_gamer_turn` -/
def GameSession.is_gamer_turn (s : GameSession) (gamer_id : GamerIdType) : Bool :=
  if s.state ≠ GameState.Game then false
  else
    ((s.sequence.findIdx? (fun id => id == gamer_id)).map
      (fun pos => pos == s.current_gamer_index)).getD false

/-- `GameSession::is_game_on` -/
def GameSession.is_game_on (s : GameSession) : Bool :=
  s.state == GameState.Game

/-- `GameSession::reset` -/
def GameSession.reset (s : GameSession) : GameSession :=
  { s with
    state := GameState.Join
    current_gamer_index := 0
    user_states := s.user_states.map (fun p => (p.1, p.2.reset)) }

/-- `GameSession::start` — transitions `Join → Game`, otherwise only logs. -/
def GameSession.start (s : GameSession) : GameSession :=
  if s.state = GameState.Join then { s with state := GameState.Game } else s

/-- `GameSession::end` (`end` is a Lean keyword, hence `end_`) —
transitions `Game → Over`, otherwise only logs. -/
def GameSession.end_ (s : GameSession) : GameSession :=
  if s.state = GameState.Game then { s with state := GameState.Over } else s

/-- `GameSession::add_update` — returns `false` (after logging) when the
gamer is missing. -/
def GameSession.add_update (s : GameSession) (gamer_id : GamerIdType) (update : Bytes) :
    GameSession × Bool :=
  match alookup s.user_states gamer_id with
  | some _ =>
    ({ s with user_states := aupdate (fun us => us.add_update update) gamer_id s.user_states },
     true)
  | none => (s, false)

/-- `push(message.clone())` onto a user state's mailbox. -/
def pushMessage (msg : Message) (us : UserState) : UserState :=
  { us with awaiting_messages := us.awaiting_messages ++ [msg] }

/-- The `MessageAddress::All` loop of `GameSession::save_message`: walk
`sequence`, skip the sender, push into each target's mailbox.  The
`Bool` is the panic flag of `.expect("Missing user state")`: when a
listed gamer has no user state the walk stops there (pushes already
performed persist) and the flag is `true`. -/
def saveMessageAll (msg : Message) :
    List GamerIdType → List (GamerIdType × UserState) →
    List (GamerIdType × UserState) × Bool
  | [], m => (m, false)
  | g :: rest, m =>
    if g = msg.from_ then saveMessageAll msg rest m
    else
      match alookup m g with
      | some _ => saveMessageAll msg rest (aupdate (pushMessage msg) g m)
      | none => (m, true)

/-- `GameSession::save_message` — the `Bool` is the panic flag of the
`.expect("Missing user state")` calls. -/
def GameSession.save_message (s : GameSession) (msg : Message) : GameSession × Bool :=
  match msg.to_ with
  | MessageAddress.All =>
    let r := saveMessageAll msg s.sequence s.user_states
    ({ s with user_states := r.1 }, r.2)
  | MessageAddress.One gamer_id =>
    match alookup s.user_states gamer_id with
    | some _ =>
      ({ s with user_states := aupdate (pushMessage msg) gamer_id s.user_states }, false)
    | none => (s, true)

/-- `GameSession::pop_gamer_messages` — swaps the mailbox for an empty
vector and returns the old contents; `unwrap_or(vec![])` for an unknown
gamer. -/
def GameSession.pop_gamer_messages (s : GameSession) (gamer_id : GamerIdType) :
    GameSession × List Message :=
  match alookup s.user_states gamer_id with
  | some us =>
    ({ s with
        user_states := aupdate (fun u => { u with awaiting_messages := [] }) gamer_id
          s.user_states },
     us.awaiting_messages)
  | none => (s, [])

/-- `GameSession::next_gamer` — `(i + 1) % sequence.len()`.  The `Bool`
is the panic flag: in Rust `% 0` panics (before the assignment), which
Lean's total `%` would silently turn into the identity. -/
def GameSession.next_gamer (s : GameSession) : GameSession × Bool :=
  if s.sequence.length = 0 then (s, true)
  else
    ({ s with current_gamer_index := (s.current_gamer_index + 1) % s.sequence.length },
     false)

/-- `struct WorldState { sessions: HashMap<SessionIdType, GameSession> }` -/
structure WorldState where
  sessions : List (SessionIdType × GameSession)
deriving DecidableEq, Repr

/-- `enum Operation` (minignetcommon). -/
inductive Operation
  | JoinSession (session : SessionIdType) (gamer : GamerIdType)
  | ResetSession (session : SessionIdType)
  | StartSession (session : SessionIdType)
  | EndSession (session : SessionIdType)
  | IsGamerTurn (session : SessionIdType) (gamer : GamerIdType)
  | NextGamer (session : SessionIdType)
  | IsGameOn (session : SessionIdType)
  | SendUpdate (session : SessionIdType) (gamer : GamerIdType) (update : Bytes)
  | GetPreviousRoundUpdates (session : SessionIdType)
  | SendMessage (session : SessionIdType) (msg : Message)
  | FetchAllMessages (session : SessionIdType) (gamer : GamerIdType)
deriving DecidableEq, Repr

/-- `enum Response` (minignetcommon). -/
inductive Response
  | Ok
  | Error
  | OkWithBool (b : Bool)
  | OkWithPreviousRoundUpdates (m : List (GamerIdType × Option Bytes))
  | OkWithMessages (msgs : List Message)
deriving DecidableEq, Repr

/-- One `MGNServer::process_*` dispatch under the world-state lock: the
new world and the response written back.  `none` models a handler panic
(no response is sent; state mutated before the panic persists). -/
def MGNServer.dispatch (w : WorldState) (op : Operation) : WorldState × Option Response :=
  match op with
  | Operation.JoinSession sid gid =>
    let s := (alookup w.sessions sid).getD GameSession.new
    (⟨ainsert w.sessions sid (s.join gid)⟩, some Response.Ok)
  | Operation.ResetSession sid =>
    match alookup w.sessions sid with
    | some s => (⟨ainsert w.sessions sid s.reset⟩, some Response.Ok)
    | none => (w, some Response.Error)
  | Operation.StartSession sid =>
    match alookup w.sessions sid with
    | some s => (⟨ainsert w.sessions sid s.start⟩, some Response.Ok)
    | none => (w, some Response.Error)
  | Operation.EndSession sid =>
    match alookup w.sessions sid with
    | some s => (⟨ainsert w.sessions sid s.end_⟩, some Response.Ok)
    | none => (w, some Response.Error)
  | Operation.IsGamerTurn sid gid =>
    match alookup w.sessions sid with
    | some s => (w, some (Response.OkWithBool (s.is_gamer_turn gid)))
    | none => (w, some Response.Error)
  | Operation.NextGamer sid =>
    match alookup w.sessions sid with
    | some s =>
      let r := s.next_gamer
      (⟨ainsert w.sessions sid r.1⟩, if r.2 then none else some Response.Ok)
    | none => (w, some Response.Error)
  | Operation.IsGameOn sid =>
    match alookup w.sessions sid with
    | some s => (w, some (Response.OkWithBool s.is_game_on))
    | none => (w, some Response.Error)
  | Operation.SendUpdate sid gid upd =>
    match alookup w.sessions sid with
    | some s =>
      let r := s.add_update gid upd
      (⟨ainsert w.sessions sid r.1⟩, if r.2 then some Response.Ok else some Response.Error)
    | none => (w, some Response.Error)
  | Operation.GetPreviousRoundUpdates sid =>
    match alookup w.sessions sid with
    | some s =>
      (w, some (Response.OkWithPreviousRoundUpdates
        (s.user_states.map (fun p => (p.1, p.2.updates.getLast?.map (fun uu => uu.update))))))
    | none => (w, some Response.Error)
  | Operation.SendMessage sid msg =>
    match alookup w.sessions sid with
    | some s =>
      let r := s.save_message msg
      (⟨ainsert w.sessions sid r.1⟩, if r.2 then none else some Response.Ok)
    | none => (w, some Response.Error)
  | Operation.FetchAllMessages sid gid =>
    match alookup w.sessions sid with
    | some s =>
      let r := s.pop_gamer_messages gid
      (⟨ainsert w.sessions sid r.1⟩, some (Response.OkWithMessages r.2))
    | none => (w, some Response.Error)

/-- `WorldState::default()` — the registry the server starts with. -/
def initialWorld : WorldState := ⟨[]⟩

/-- Run a sequence of dispatched operations (each one a full
request under the global lock). -/
def execOps (w : WorldState) : List Operation → WorldState
  | [] => w
  | op :: rest => execOps (MGNServer.dispatch w op).1 rest

/-- Iterate `next_gamer` (keeping the session, dropping the panic flag). -/
def nextGamerIter (s : GameSession) : Nat → GameSession
  | 0 => s
  | k + 1 => ((nextGamerIter s k).next_gamer).1

/-- A session where only gamer `"a"` ever joined. -/
def sessionA : GameSession := GameSession.new.join "a"

/-- A registry holding `sessionA` under the id `"s"`. -/
def worldA : WorldState := ⟨[("s", sessionA)]⟩

/-- The §8 example: participants `A`, `B`, `C` in join order. -/
def sessionABC : GameSession := ((GameSession.new.join "A").join "B").join "C"

/-- A broadcast message sent by `A`. -/
def msgAllFromA : Message := { from_ := "A", to_ := MessageAddress.All, payload := [1, 2] }

/-- A two-participant session, gamers `"a"` then `"b"`. -/
def sessionAB : GameSession := (GameSession.new.join "a").join "b"

/-- `sessionA` driven to the `Over` state. -/
def sessionOver : GameSession := (sessionA.start).end_

/-- A registry holding `sessionOver` under the id `"s"`. -/
def worldOver : WorldState := ⟨[("s", sessionOver)]⟩

/-- A first point-to-point message for gamer `"b"`. -/
def msgOne1 : Message := { from_ := "a", to_ := MessageAddress.One "b", payload := [1] }

/-- A second point-to-point message for gamer `"b"`. -/
def msgOne2 : Message := { from_ := "a", to_ := MessageAddress.One "b", payload := [2] }

/-- `sessionAB` after `msgOne1` and then `msgOne2` were saved for `"b"`. -/
def sessionABMsgs : GameSession :=
  ((sessionAB.save_message msgOne1).1.save_message msgOne2).1

/-- The user state `sessionABMsgs` holds for gamer `"b"`. -/
def userStateB : UserState := { updates := [], awaiting_messages := [msgOne1, msgOne2] }

/-- Weak session invariant: holds for `GameSession.new` as well as for
every reachable session.  The keys of `user_states` are exactly the
`sequence` entries (in order), the `sequence` has no duplicates, and the
turn index is in range as soon as anyone has joined. -/
def SessionInv0 (s : GameSession) : Prop :=
  s.user_states.map Prod.fst = s.sequence ∧
  s.sequence.Nodup ∧
  (s.sequence = [] → s.current_gamer_index = 0) ∧
  (s.sequence ≠ [] → s.current_gamer_index < s.sequence.length)

/-- Invariant of every session stored in the registry: as `SessionInv0`,
and additionally at least one participant has joined (the registry only
ever stores a session right after a `join`). -/
def SessionInv (s : GameSession) : Prop :=
  s.user_states.map Prod.fst = s.sequence ∧
  s.sequence.Nodup ∧
  s.sequence ≠ [] ∧
  s.current_gamer_index < s.sequence.length

/-- Registry invariant: every stored session satisfies `SessionInv`. -/
def WorldInv (w : WorldState) : Prop :=
  ∀ sid s, alookup w.sessions sid = some s → SessionInv s

/-! ### Association-list lemmas -/

theorem aupdate_cons_eq {α β : Type} [DecidableEq α] (f : β → β) (a k : α) (v : β)
    (rest : List (α × β)) (h : k = a) :
    aupdate f a ((k, v) :: rest) = (k, f v) :: aupdate f a rest := by
  simp [aupdate, h]

theorem aupdate_cons_ne {α β : Type} [DecidableEq α] (f : β → β) (a k : α) (v : β)
    (rest : List (α × β)) (h : ¬k = a) :
    aupdate f a ((k, v) :: rest) = (k, v) :: aupdate f a rest := by
  simp [aupdate, h]

theorem alookup_aupdate {α β : Type} [DecidableEq α] (f : β → β) (a b : α)
    (m : List (α × β)) :
    alookup (aupdate f a m) b = if b = a then (alookup m a).map f else alookup m b := by
  induction m with
  | nil => simp [alookup, aupdate]
  | cons p rest ih =>
    obtain ⟨k, v⟩ := p
    by_cases hka : k = a
    · subst hka
      rw [aupdate_cons_eq _ _ _ _ _ rfl]
      by_cases hbk : b = k
      · subst hbk
        simp [alookup]
      · simp [alookup, hbk, Ne.symm hbk, ih]
    · rw [aupdate_cons_ne _ _ _ _ _ hka]
      by_cases hkb : k = b
      · subst hkb
        simp [alookup, hka, Ne.symm hka]
      · simp [alookup, hka, hkb, ih]

theorem aupdate_keys {α β : Type} [DecidableEq α] (f : β → β) (a : α)
    (m : List (α × β)) :
    (aupdate f a m).map Prod.fst = m.map Prod.fst := by
  induction m with
  | nil => rfl
  | cons p rest ih =>
    obtain ⟨k, v⟩ := p
    by_cases hka : k = a <;> simp [aupdate, hka, ih]

theorem alookup_map_value {α β : Type} [DecidableEq α] (f : β → β) (b : α)
    (m : List (α × β)) :
    alookup (m.map (fun p => (p.1, f p.2))) b = (alookup m b).map f := by
  induction m with
  | nil => rfl
  | cons p rest ih =>
    obtain ⟨k, v⟩ := p
    by_cases hkb : k = b <;> simp [alookup, hkb, ih]

theorem alookup_ainsert {α β : Type} [DecidableEq α] (m : List (α × β)) (a b : α)
    (v : β) :
    alookup (ainsert m a v) b = if b = a then some v else alookup m b := by
  induction m with
  | nil =>
    by_cases hba : b = a
    · subst hba; simp [alookup, ainsert]
    · simp [alookup, ainsert, hba, Ne.symm hba]
  | cons p rest ih =>
    obtain ⟨k, w⟩ := p
    by_cases hka : k = a
    · subst hka
      by_cases hbk : b = k
      · subst hbk; simp [alookup, ainsert]
      · simp [alookup, ainsert, hbk, Ne.symm hbk]
    · by_cases hkb : k = b
      · subst hkb
        simp [alookup, ainsert, hka, Ne.symm hka]
      · simp [alookup, ainsert, hka, hkb, ih]

theorem ainsert_self {α β : Type} [DecidableEq α] {m : List (α × β)} {a : α} {v : β}
    (h : alookup m a = some v) : ainsert m a v = m := by
  induction m with
  | nil => simp [alookup] at h
  | cons p rest ih =>
    obtain ⟨k, w⟩ := p
    by_cases hka : k = a
    · subst hka
      simp [alookup] at h
      simp [ainsert, h]
    · simp [alookup, hka] at h
      simp [ainsert, hka, ih h]

theorem alookup_isSome_iff_mem {α β : Type} [DecidableEq α] (m : List (α × β)) (b : α) :
    (alookup m b).isSome ↔ b ∈ m.map Prod.fst := by
  induction m with
  | nil => simp [alookup]
  | cons p rest ih =>
    obtain ⟨k, v⟩ := p
    by_cases hkb : k = b
    · subst hkb; simp [alookup]
    · simp [alookup, hkb, Ne.symm hkb, ih]

theorem alookup_append_of_some {α β : Type} [DecidableEq α] {m : List (α × β)} {b : α}
    {v : β} (m' : List (α × β)) (h : alookup m b = some v) :
    alookup (m ++ m') b = some v := by
  induction m with
  | nil => simp [alookup] at h
  | cons p rest ih =>
    obtain ⟨k, w⟩ := p
    by_cases hkb : k = b
    · subst hkb
      simp [alookup] at h
      simp [alookup, h]
    · simp [alookup, hkb] at h ⊢
      exact ih h

theorem alookup_append_of_none {α β : Type} [DecidableEq α] {m : List (α × β)} {b : α}
    (m' : List (α × β)) (h : alookup m b = none) :
    alookup (m ++ m') b = alookup m' b := by
  induction m with
  | nil => simp [alookup]
  | cons p rest ih =>
    obtain ⟨k, w⟩ := p
    by_cases hkb : k = b
    · subst hkb; simp [alookup] at h
    · simp [alookup, hkb] at h ⊢
      exact ih h

/-! ### Session-level lemmas -/

theorem inv_inv0 {s : GameSession} (h : SessionInv s) : SessionInv0 s := by
  obtain ⟨hkeys, hnd, hne, hlt⟩ := h
  exact ⟨hkeys, hnd, fun h0 => absurd h0 hne, fun _ => hlt⟩

theorem new_inv0 : SessionInv0 GameSession.new := by
  refine ⟨rfl, List.nodup_nil, fun _ => rfl, fun h0 => absurd rfl h0⟩

theorem join_of_mem {s : GameSession} {g : GamerIdType}
    (h : (alookup s.user_states g).isSome) : s.join g = s := by
  simp [GameSession.join, h]

theorem join_of_not_mem {s : GameSession} {g : GamerIdType}
    (h : alookup s.user_states g = none) :
    s.join g =
      { s with
        user_states := s.user_states ++ [(g, UserState.default)]
        sequence := s.sequence ++ [g] } := by
  simp [GameSession.join, h]

theorem join_inv {s : GameSession} (g : GamerIdType) (h : SessionInv0 s) :
    SessionInv (s.join g) := by
  obtain ⟨hkeys, hnd, hemp, hlt⟩ := h
  cases hsome : alookup s.user_states g with
  | some us =>
    rw [join_of_mem (by simp [hsome])]
    have hmem : g ∈ s.sequence := by
      rw [← hkeys]
      exact (alookup_isSome_iff_mem _ _).mp (by simp [hsome])
    have hne : s.sequence ≠ [] := by
      intro h0; rw [h0] at hmem; simp at hmem
    exact ⟨hkeys, hnd, hne, hlt hne⟩
  | none =>
    rw [join_of_not_mem hsome]
    have hnotmem : g ∉ s.sequence := by
      rw [← hkeys]
      intro hmem
      have := (alookup_isSome_iff_mem s.user_states g).mpr hmem
      simp [hsome] at this
    refine ⟨?_, ?_, ?_, ?_⟩
    · show (s.user_states ++ [(g, UserState.default)]).map Prod.fst = s.sequence ++ [g]
      simp [hkeys]
    · show (s.sequence ++ [g]).Nodup
      simp [List.nodup_append, hnd, hnotmem]
    · show s.sequence ++ [g] ≠ []
      simp
    · show s.current_gamer_index < (s.sequence ++ [g]).length
      by_cases h0 : s.sequence = []
      · simp [h0, hemp h0]
      · have := hlt h0
        simp only [List.length_append, List.length_singleton]
        omega

theorem reset_inv {s : GameSession} (h : SessionInv s) : SessionInv s.reset := by
  obtain ⟨hkeys, hnd, hne, _⟩ := h
  refine ⟨?_, hnd, hne, ?_⟩
  · show (s.user_states.map (fun p => (p.1, p.2.reset))).map Prod.fst = s.sequence
    rw [← hkeys]
    simp
  · show 0 < s.sequence.length
    exact List.length_pos.mpr hne

theorem start_inv {s : GameSession} (h : SessionInv s) : SessionInv s.start := by
  obtain ⟨hkeys, hnd, hne, hlt⟩ := h
  unfold GameSession.start
  split
  · exact ⟨hkeys, hnd, hne, hlt⟩
  · exact ⟨hkeys, hnd, hne, hlt⟩

theorem end_inv {s : GameSession} (h : SessionInv s) : SessionInv s.end_ := by
  obtain ⟨hkeys, hnd, hne, hlt⟩ := h
  unfold GameSession.end_
  split
  · exact ⟨hkeys, hnd, hne, hlt⟩
  · exact ⟨hkeys, hnd, hne, hlt⟩

theorem next_gamer_inv {s : GameSession} (h : SessionInv s) :
    SessionInv (s.next_gamer).1 := by
  obtain ⟨hkeys, hnd, hne, hlt⟩ := h
  have hpos : 0 < s.sequence.length := List.length_pos.mpr hne
  unfold GameSession.next_gamer
  rw [if_neg (by omega)]
  exact ⟨hkeys, hnd, hne, Nat.mod_lt _ hpos⟩

theorem add_update_inv {s : GameSession} (g : GamerIdType) (u : Bytes)
    (h : SessionInv s) : SessionInv (s.add_update g u).1 := by
  obtain ⟨hkeys, hnd, hne, hlt⟩ := h
  cases halo : alookup s.user_states g with
  | some us =>
    simp only [GameSession.add_update, halo]
    exact ⟨by rw [aupdate_keys]; exact hkeys, hnd, hne, hlt⟩
  | none =>
    simp only [GameSession.add_update, halo]
    exact ⟨hkeys, hnd, hne, hlt⟩

theorem saveMessageAll_keys (msg : Message) (seq : List GamerIdType)
    (m : List (GamerIdType × UserState)) :
    ((saveMessageAll msg seq m).1).map Prod.fst = m.map Prod.fst := by
  induction seq generalizing m with
  | nil => rfl
  | cons g rest ih =>
    by_cases hg : g = msg.from_
    · simp only [saveMessageAll, if_pos hg]
      exact ih m
    · cases halo : alookup m g with
      | some us =>
        simp only [saveMessageAll, if_neg hg, halo]
        rw [ih, aupdate_keys]
      | none =>
        simp only [saveMessageAll, if_neg hg, halo]

theorem save_message_inv {s : GameSession} (msg : Message) (h : SessionInv s) :
    SessionInv (s.save_message msg).1 := by
  obtain ⟨hkeys, hnd, hne, hlt⟩ := h
  cases hto : msg.to_ with
  | All =>
    simp only [GameSession.save_message, hto]
    exact ⟨by rw [saveMessageAll_keys]; exact hkeys, hnd, hne, hlt⟩
  | One g =>
    cases halo : alookup s.user_states g with
    | some us =>
      simp only [GameSession.save_message, hto, halo]
      exact ⟨by rw [aupdate_keys]; exact hkeys, hnd, hne, hlt⟩
    | none =>
      simp only [GameSession.save_message, hto, halo]
      exact ⟨hkeys, hnd, hne, hlt⟩

theorem pop_gamer_messages_inv {s : GameSession} (g : GamerIdType)
    (h : SessionInv s) : SessionInv (s.pop_gamer_messages g).1 := by
  obtain ⟨hkeys, hnd, hne, hlt⟩ := h
  cases halo : alookup s.user_states g with
  | some us =>
    simp only [GameSession.pop_gamer_messages, halo]
    exact ⟨by rw [aupdate_keys]; exact hkeys, hnd, hne, hlt⟩
  | none =>
    simp only [GameSession.pop_gamer_messages, halo]
    exact ⟨hkeys, hnd, hne, hlt⟩

/-! ### Registry-level invariant preservation -/

theorem worldInv_ainsert {w : WorldState} {sid : SessionIdType} {s : GameSession}
    (h : WorldInv w) (hs : SessionInv s) : WorldInv ⟨ainsert w.sessions sid s⟩ := by
  intro sid2 s2 h2
  rw [show (⟨ainsert w.sessions sid s⟩ : WorldState).sessions = ainsert w.sessions sid s
        from rfl,
      alookup_ainsert] at h2
  by_cases hss : sid2 = sid
  · rw [if_pos hss] at h2
    cases h2
    exact hs
  · rw [if_neg hss] at h2
    exact h sid2 s2 h2

theorem dispatch_inv {w : WorldState} (op : Operation) (h : WorldInv w) :
    WorldInv (MGNServer.dispatch w op).1 := by
  cases op with
  | JoinSession sid gid =>
    simp only [MGNServer.dispatch]
    apply worldInv_ainsert h
    apply join_inv
    cases halo : alookup w.sessions sid with
    | some s0 =>
      simp only [halo, Option.getD_some]
      exact inv_inv0 (h sid s0 halo)
    | none =>
      simp only [halo, Option.getD_none]
      exact new_inv0
  | ResetSession sid =>
    cases halo : alookup w.sessions sid with
    | some s0 =>
      simp only [MGNServer.dispatch, halo]
      exact worldInv_ainsert h (reset_inv (h sid s0 halo))
    | none => simp only [MGNServer.dispatch, halo]; exact h
  | StartSession sid =>
    cases halo : alookup w.sessions sid with
    | some s0 =>
      simp only [MGNServer.dispatch, halo]
      exact worldInv_ainsert h (start_inv (h sid s0 halo))
    | none => simp only [MGNServer.dispatch, halo]; exact h
  | EndSession sid =>
    cases halo : alookup w.sessions sid with
    | some s0 =>
      simp only [MGNServer.dispatch, halo]
      exact worldInv_ainsert h (end_inv (h sid s0 halo))
    | none => simp only [MGNServer.dispatch, halo]; exact h
  | IsGamerTurn sid gid =>
    cases halo : alookup w.sessions sid with
    | some s0 => simp only [MGNServer.dispatch, halo]; exact h
    | none => simp only [MGNServer.dispatch, halo]; exact h
  | NextGamer sid =>
    cases halo : alookup w.sessions sid with
    | some s0 =>
      simp only [MGNServer.dispatch, halo]
      exact worldInv_ainsert h (next_gamer_inv (h sid s0 halo))
    | none => simp only [MGNServer.dispatch, halo]; exact h
  | IsGameOn sid =>
    cases halo : alookup w.sessions sid with
    | some s0 => simp only [MGNServer.dispatch, halo]; exact h
    | none => simp only [MGNServer.dispatch, halo]; exact h
  | SendUpdate sid gid upd =>
    cases halo : alookup w.sessions sid with
    | some s0 =>
      simp only [MGNServer.dispatch, halo]
      exact worldInv_ainsert h (add_update_inv gid upd (h sid s0 halo))
    | none => simp only [MGNServer.dispatch, halo]; exact h
  | GetPreviousRoundUpdates sid =>
    cases halo : alookup w.sessions sid with
    | some s0 => simp only [MGNServer.dispatch, halo]; exact h
    | none => simp only [MGNServer.dispatch, halo]; exact h
  | SendMessage sid msg =>
    cases halo : alookup w.sessions sid with
    | some s0 =>
      simp only [MGNServer.dispatch, halo]
      exact worldInv_ainsert h (save_message_inv msg (h sid s0 halo))
    | none => simp only [MGNServer.dispatch, halo]; exact h
  | FetchAllMessages sid gid =>
    cases halo : alookup w.sessions sid with
    | some s0 =>
      simp only [MGNServer.dispatch, halo]
      exact worldInv_ainsert h (pop_gamer_messages_inv gid (h sid s0 halo))
    | none => simp only [MGNServer.dispatch, halo]; exact h

theorem initialWorld_inv : WorldInv initialWorld := by
  intro sid s h
  simp [initialWorld, alookup] at h

theorem execOps_inv {w : WorldState} (ops : List Operation) (h : WorldInv w) :
    WorldInv (execOps w ops) := by
  induction ops generalizing w with
  | nil => exact h
  | cons op rest ih => exact ih (dispatch_inv op h)

theorem execOps_initial_inv (ops : List Operation) : WorldInv (execOps initialWorld ops) :=
  execOps_inv ops initialWorld_inv

/-! ### Lemmas about the message and turn primitives -/

theorem next_gamer_sequence (s : GameSession) :
    ((s.next_gamer).1).sequence = s.sequence := by
  unfold GameSession.next_gamer
  split
  · rfl
  · rfl

theorem next_gamer_index (s : GameSession) (h : s.sequence.length ≠ 0) :
    ((s.next_gamer).1).current_gamer_index =
      (s.current_gamer_index + 1) % s.sequence.length := by
  unfold GameSession.next_gamer
  rw [if_neg h]

theorem nextGamerIter_sequence (s : GameSession) (k : Nat) :
    (nextGamerIter s k).sequence = s.sequence := by
  induction k with
  | zero => rfl
  | succ k ih =>
    simp only [nextGamerIter]
    rw [next_gamer_sequence, ih]

theorem saveMessageAll_no_panic (msg : Message) (seq : List GamerIdType)
    (m : List (GamerIdType × UserState))
    (hkeys : ∀ g ∈ seq, (alookup m g).isSome) :
    (saveMessageAll msg seq m).2 = false := by
  induction seq generalizing m with
  | nil => rfl
  | cons g rest ih =>
    by_cases hg : g = msg.from_
    · simp only [saveMessageAll, if_pos hg]
      exact ih m (fun g2 hg2 => hkeys g2 (List.mem_cons_of_mem _ hg2))
    · cases halo : alookup m g with
      | some us =>
        simp only [saveMessageAll, if_neg hg, halo]
        apply ih
        intro g2 hg2
        rw [alookup_aupdate]
        by_cases hgg : g2 = g
        · rw [if_pos hgg, halo]
          rfl
        · rw [if_neg hgg]
          exact hkeys g2 (List.mem_cons_of_mem _ hg2)
      | none =>
        exfalso
        have := hkeys g (List.mem_cons_self _ _)
        rw [halo] at this
        exact Bool.noConfusion this

theorem saveMessageAll_lookup (msg : Message) (seq : List GamerIdType)
    (m : List (GamerIdType × UserState)) (b : GamerIdType) (hnd : seq.Nodup)
    (hkeys : ∀ g ∈ seq, (alookup m g).isSome) :
    alookup (saveMessageAll msg seq m).1 b =
      if b ∈ seq ∧ b ≠ msg.from_
      then (alookup m b).map (pushMessage msg)
      else alookup m b := by
  induction seq generalizing m with
  | nil => simp [saveMessageAll]
  | cons g rest ih =>
    have hnd' : rest.Nodup := hnd.of_cons
    have hgnotin : g ∉ rest := (List.nodup_cons.mp hnd).1
    by_cases hg : g = msg.from_
    · simp only [saveMessageAll, if_pos hg]
      rw [ih m hnd' (fun g2 hg2 => hkeys g2 (List.mem_cons_of_mem _ hg2))]
      by_cases hb : b ∈ rest ∧ b ≠ msg.from_
      · rw [if_pos hb, if_pos ⟨List.mem_cons_of_mem _ hb.1, hb.2⟩]
      · rw [if_neg hb]
        by_cases hb2 : b ∈ g :: rest ∧ b ≠ msg.from_
        · exfalso
          rcases List.mem_cons.mp hb2.1 with hbg | hbr
          · exact hb2.2 (hbg.trans hg)
          · exact hb ⟨hbr, hb2.2⟩
        · rw [if_neg hb2]
    · cases halo : alookup m g with
      | none =>
        exfalso
        have := hkeys g (List.mem_cons_self _ _)
        rw [halo] at this
        exact Bool.noConfusion this
      | some us =>
        simp only [saveMessageAll, if_neg hg, halo]
        have hk : ∀ g2 ∈ rest, (alookup (aupdate (pushMessage msg) g m) g2).isSome := by
          intro g2 hg2
          rw [alookup_aupdate]
          by_cases hgg : g2 = g
          · rw [if_pos hgg, halo]
            rfl
          · rw [if_neg hgg]
            exact hkeys g2 (List.mem_cons_of_mem _ hg2)
        rw [ih (aupdate (pushMessage msg) g m) hnd' hk]
        by_cases hbg : b = g
        · subst hbg
          rw [if_neg (fun h => hgnotin h.1), alookup_aupdate, if_pos rfl,
            if_pos ⟨List.mem_cons_self _ _, hg⟩]
        · have haup : alookup (aupdate (pushMessage msg) g m) b = alookup m b := by
            rw [alookup_aupdate, if_neg hbg]
          rw [haup]
          by_cases hbrest : b ∈ rest ∧ b ≠ msg.from_
          · rw [if_pos hbrest, if_pos ⟨List.mem_cons_of_mem _ hbrest.1, hbrest.2⟩]
          · rw [if_neg hbrest]
            by_cases hb2 : b ∈ g :: rest ∧ b ≠ msg.from_
            · exfalso
              rcases List.mem_cons.mp hb2.1 with h1 | h1
              · exact hbg h1
              · exact hbrest ⟨h1, hb2.2⟩
            · rw [if_neg hb2]

/-! ### Claim theorems -/

/-- Claim C3: for every existing session, `start` when the state is not
`Join`, and `end` when the state is not `Game`, leave the session (and
the whole registry) unchanged, and the server still replies `Ok`, not
`Error`. -/
theorem invalid_transition_keeps_session_and_replies_ok (w : WorldState)
    (sid : SessionIdType) (s : GameSession) (h : alookup w.sessions sid = some s) :
    (s.state ≠ GameState.Join →
      s.start = s ∧
      MGNServer.dispatch w (Operation.StartSession sid) = (w, some Response.Ok)) ∧
    (s.state ≠ GameState.Game →
      s.end_ = s ∧
      MGNServer.dispatch w (Operation.EndSession sid) = (w, some Response.Ok)) := by
  constructor
  · intro hst
    have hss : s.start = s := by
      unfold GameSession.start
      rw [if_neg hst]
    refine ⟨hss, ?_⟩
    simp only [MGNServer.dispatch, h, hss, ainsert_self h]
  · intro hst
    have hss : s.end_ = s := by
      unfold GameSession.end_
      rw [if_neg hst]
    refine ⟨hss, ?_⟩
    simp only [MGNServer.dispatch, h, hss, ainsert_self h]

/-- Witness for C3: a session driven to `Over` is in neither `Join` nor
`Game`; both misused transitions leave the world unchanged and reply
`Ok`. -/
theorem invalid_transition_keeps_session_and_replies_ok_witness :
    alookup worldOver.sessions "s" = some sessionOver ∧
    sessionOver.state ≠ GameState.Join ∧
    sessionOver.state ≠ GameState.Game ∧
    (sessionOver.start = sessionOver ∧
      MGNServer.dispatch worldOver (Operation.StartSession "s") =
        (worldOver, some Response.Ok)) ∧
    (sessionOver.end_ = sessionOver ∧
      MGNServer.dispatch worldOver (Operation.EndSession "s") =
        (worldOver, some Response.Ok)) :=
  ⟨by decide, by decide, by decide,
   (invalid_transition_keeps_session_and_replies_ok worldOver "s" sessionOver
     (by decide)).1 (by decide),
   (invalid_transition_keeps_session_and_replies_ok worldOver "s" sessionOver
     (by decide)).2 (by decide)⟩

/-- Claim C4: for a joined participant, `pop_gamer_messages` returns the
entire mailbox in insertion (FIFO) order, leaves the mailbox empty, and
an immediately repeated pop returns the empty sequence. -/
theorem pop_gamer_messages_exactly_once (s : GameSession) (g : GamerIdType)
    (us : UserState) (h : alookup s.user_states g = some us) :
    (s.pop_gamer_messages g).2 = us.awaiting_messages ∧
    alookup ((s.pop_gamer_messages g).1).user_states g =
      some { us with awaiting_messages := [] } ∧
    (((s.pop_gamer_messages g).1).pop_gamer_messages g).2 = [] := by
  have haup : alookup
      (aupdate (fun u => { u with awaiting_messages := [] }) g s.user_states) g =
      some { us with awaiting_messages := [] } := by
    rw [alookup_aupdate, if_pos rfl, h]
    rfl
  refine ⟨?_, ?_, ?_⟩
  · simp only [GameSession.pop_gamer_messages, h]
  · simp only [GameSession.pop_gamer_messages, h]
    exact haup
  · simp only [GameSession.pop_gamer_messages, h, haup]

/-- Witness for C4 at a concrete two-participant session holding two
queued messages for `"b"`. -/
theorem pop_gamer_messages_exactly_once_witness :
    alookup sessionABMsgs.user_states "b" = some userStateB ∧
    ((sessionABMsgs.pop_gamer_messages "b").2 = userStateB.awaiting_messages ∧
     alookup ((sessionABMsgs.pop_gamer_messages "b").1).user_states "b" =
       some { userStateB with awaiting_messages := [] } ∧
     (((sessionABMsgs.pop_gamer_messages "b").1).pop_gamer_messages "b").2 = []) :=
  ⟨by decide, pop_gamer_messages_exactly_once sessionABMsgs "b" userStateB (by decide)⟩

/-- Claim C5: `join` is idempotent per gamer: the id ends up exactly once
in `sequence`; a repeated `join` is a complete no-op (so the turn order,
the existing update history and the mailbox are untouched). -/
theorem join_idempotent (s : GameSession) (g : GamerIdType)
    (hkeys : s.user_states.map Prod.fst = s.sequence) (hnd : s.sequence.Nodup) :
    (s.join g).sequence.count g = 1 ∧
    ((alookup s.user_states g).isSome → s.join g = s) ∧
    (s.join g).join g = s.join g := by
  have hjoined : (alookup (s.join g).user_states g).isSome := by
    cases hsome : alookup s.user_states g with
    | some us =>
      rw [join_of_mem (by rw [hsome]; rfl), hsome]
      rfl
    | none =>
      rw [join_of_not_mem hsome]
      show (alookup (s.user_states ++ [(g, UserState.default)]) g).isSome
      rw [alookup_append_of_none _ hsome]
      simp [alookup]
  refine ⟨?_, fun hsome => join_of_mem hsome, join_of_mem hjoined⟩
  cases hsome : alookup s.user_states g with
  | some us =>
    rw [join_of_mem (by rw [hsome]; rfl)]
    have hmem : g ∈ s.sequence := by
      rw [← hkeys]
      exact (alookup_isSome_iff_mem _ _).mp (by rw [hsome]; rfl)
    exact List.count_eq_one_of_mem hnd hmem
  | none =>
    rw [join_of_not_mem hsome]
    show (s.sequence ++ [g]).count g = 1
    have hnotmem : g ∉ s.sequence := by
      rw [← hkeys]
      intro hmem
      have := (alookup_isSome_iff_mem s.user_states g).mpr hmem
      rw [hsome] at this
      exact Bool.noConfusion this
    rw [List.count_append]
    simp [List.count_eq_zero.mpr hnotmem]

/-- Witness for C5 at a concrete two-participant session. -/
theorem join_idempotent_witness :
    sessionAB.user_states.map Prod.fst = sessionAB.sequence ∧
    sessionAB.sequence.Nodup ∧
    ((sessionAB.join "a").sequence.count "a" = 1 ∧
     ((alookup sessionAB.user_states "a").isSome → sessionAB.join "a" = sessionAB) ∧
     (sessionAB.join "a").join "a" = sessionAB.join "a") :=
  ⟨by decide, by decide, join_idempotent sessionAB "a" (by decide) (by decide)⟩

/-- Claim C7: starting from a session whose turn index is 0 (fresh or
just reset) with `n ≥ 1` participants, after `k` calls to `next_gamer`
the turn index is `k mod n`. -/
theorem next_gamer_iter_index_mod (s : GameSession) (k : Nat)
    (h0 : s.current_gamer_index = 0) (hn : 1 ≤ s.sequence.length) :
    (nextGamerIter s k).current_gamer_index = k % s.sequence.length := by
  induction k with
  | zero =>
    show s.current_gamer_index = 0 % s.sequence.length
    rw [h0, Nat.zero_mod]
  | succ k ih =>
    have hlen : (nextGamerIter s k).sequence.length ≠ 0 := by
      rw [nextGamerIter_sequence]
      omega
    show (((nextGamerIter s k).next_gamer).1).current_gamer_index = _
    rw [next_gamer_index _ hlen, ih, nextGamerIter_sequence, Nat.mod_add_mod]

/-- Witness for C7: three `next_gamer` calls on a fresh two-participant
session put the index at `3 mod 2`. -/
theorem next_gamer_iter_index_mod_witness :
    sessionAB.current_gamer_index = 0 ∧
    1 ≤ sessionAB.sequence.length ∧
    (nextGamerIter sessionAB 3).current_gamer_index = 3 % sessionAB.sequence.length :=
  ⟨by decide, by decide, next_gamer_iter_index_mod sessionAB 3 (by decide) (by decide)⟩

/-- Claim C9: `reset` sets the state to `Join` and the turn index to 0,
preserves the participant sequence, and maps every stored user state to
one with a cleared update history and an untouched mailbox. -/
theorem reset_clears_updates_keeps_mailboxes (s : GameSession) :
    (s.reset).state = GameState.Join ∧
    (s.reset).current_gamer_index = 0 ∧
    (s.reset).sequence = s.sequence ∧
    ∀ g, alookup (s.reset).user_states g =
      (alookup s.user_states g).map
        (fun us => { updates := [], awaiting_messages := us.awaiting_messages }) := by
  refine ⟨rfl, rfl, rfl, ?_⟩
  intro g
  show alookup (s.user_states.map (fun p => (p.1, p.2.reset))) g = _
  rw [alookup_map_value]
  cases alookup s.user_states g with
  | none => rfl
  | some us => rfl

/-- Claim C1 (counterexample): in an existing session where `"b"` never
joined, `FetchAllMessages("s", "b")` does not respond `Error` — it
responds `OkWithMessages []` — so "fails iff never joined" is false. -/
theorem fetch_all_messages_unknown_gamer_not_error_cex :
    alookup sessionA.user_states "b" = none ∧
    (MGNServer.dispatch worldA (Operation.FetchAllMessages "s" "b")).2 =
      some (Response.OkWithMessages []) ∧
    (MGNServer.dispatch worldA (Operation.FetchAllMessages "s" "b")).2 ≠
      some Response.Error :=
  ⟨by decide, by decide, by decide⟩

/-- Claim C1 (amended): `FetchAllMessages` responds `Error` iff the
session does not exist; for an existing session it always responds with
the popped mailbox, which is the empty sequence both for a joined
participant with no pending messages and for a gamer who never joined. -/
theorem fetch_all_messages_error_iff_unknown_session (w : WorldState)
    (sid : SessionIdType) (gid : GamerIdType) :
    ((MGNServer.dispatch w (Operation.FetchAllMessages sid gid)).2 =
        some Response.Error ↔ alookup w.sessions sid = none) ∧
    ∀ s, alookup w.sessions sid = some s →
      (MGNServer.dispatch w (Operation.FetchAllMessages sid gid)).2 =
        some (Response.OkWithMessages (s.pop_gamer_messages gid).2) ∧
      (alookup s.user_states gid = none → (s.pop_gamer_messages gid).2 = []) := by
  cases halo : alookup w.sessions sid with
  | some s =>
    constructor
    · simp [MGNServer.dispatch, halo]
    · intro s2 h2
      cases h2
      constructor
      · simp only [MGNServer.dispatch, halo]
      · intro hg
        simp only [GameSession.pop_gamer_messages, hg]
  | none =>
    constructor
    · simp [MGNServer.dispatch, halo]
    · intro s2 h2
      exact Option.noConfusion h2

/-- Witness for the amended C1 at a concrete session where `"b"` never
joined. -/
theorem fetch_all_messages_error_iff_unknown_session_witness :
    alookup worldA.sessions "s" = some sessionA ∧
    ((MGNServer.dispatch worldA (Operation.FetchAllMessages "s" "b")).2 =
       some (Response.OkWithMessages (sessionA.pop_gamer_messages "b").2) ∧
     (alookup sessionA.user_states "b" = none →
       (sessionA.pop_gamer_messages "b").2 = [])) :=
  ⟨by decide,
   (fetch_all_messages_error_iff_unknown_session worldA "s" "b").2 sessionA (by decide)⟩

/-- Claim C2 (code evaluated at the failing input): `save_message` with
address `One("b")` in a session where `"b"` never joined hits the
`.expect("Missing user state")` panic (flag `true`): the handler crashes
without replying (`none`), instead of answering `Error`; the session's
mailboxes are unchanged. -/
theorem send_message_unknown_one_target_panics :
    alookup sessionA.user_states "b" = none ∧
    (sessionA.save_message
      { from_ := "a", to_ := MessageAddress.One "b", payload := [] }).2 = true ∧
    MGNServer.dispatch worldA
      (Operation.SendMessage "s"
        { from_ := "a", to_ := MessageAddress.One "b", payload := [] }) =
      (worldA, none) :=
  ⟨by decide, by decide, by decide⟩

/-- Claim C6: every session reachable by any sequence of dispatched
operations has a non-empty participant sequence with the turn index in
range, and `NextGamer` dispatched to it succeeds with `Ok` (the modulo
in `next_gamer` is never taken with divisor zero). -/
theorem reachable_sessions_nonempty_turn_in_range (ops : List Operation)
    (sid : SessionIdType) (s : GameSession)
    (h : alookup (execOps initialWorld ops).sessions sid = some s) :
    s.sequence ≠ [] ∧
    s.current_gamer_index < s.sequence.length ∧
    (MGNServer.dispatch (execOps initialWorld ops) (Operation.NextGamer sid)).2 =
      some Response.Ok := by
  obtain ⟨hkeys, hnd, hne, hlt⟩ := execOps_initial_inv ops sid s h
  have hlen : s.sequence.length ≠ 0 := by
    intro h0
    exact hne (List.length_eq_zero.mp h0)
  refine ⟨hne, hlt, ?_⟩
  simp only [MGNServer.dispatch, h, GameSession.next_gamer, if_neg hlen]
  rfl

/-- Witness for C6 after a single join. -/
theorem reachable_sessions_nonempty_turn_in_range_witness :
    alookup (execOps initialWorld [Operation.JoinSession "s" "a"]).sessions "s" =
      some sessionA ∧
    (sessionA.sequence ≠ [] ∧
     sessionA.current_gamer_index < sessionA.sequence.length ∧
     (MGNServer.dispatch (execOps initialWorld [Operation.JoinSession "s" "a"])
        (Operation.NextGamer "s")).2 = some Response.Ok) :=
  ⟨by decide,
   reachable_sessions_nonempty_turn_in_range [Operation.JoinSession "s" "a"] "s"
     sessionA (by decide)⟩

/-- Claim C8: a broadcast (`All`) message is appended to the mailbox of
every joined participant except the sender, and to no other mailbox; no
panic occurs. -/
theorem save_message_broadcast_excludes_sender (s : GameSession) (msg : Message)
    (hto : msg.to_ = MessageAddress.All)
    (hkeys : ∀ g ∈ s.sequence, (alookup s.user_states g).isSome)
    (hnd : s.sequence.Nodup) :
    (s.save_message msg).2 = false ∧
    ∀ g, alookup ((s.save_message msg).1).user_states g =
      if g ∈ s.sequence ∧ g ≠ msg.from_
      then (alookup s.user_states g).map (pushMessage msg)
      else alookup s.user_states g := by
  constructor
  · simp only [GameSession.save_message, hto]
    exact saveMessageAll_no_panic msg s.sequence s.user_states hkeys
  · intro g
    simp only [GameSession.save_message, hto]
    exact saveMessageAll_lookup msg s.sequence s.user_states g hnd hkeys

/-- Witness for C8 with participants `{A, B, C}` and a broadcast from
`A`: the payload lands in `B`'s and `C`'s mailboxes but not `A`'s. -/
theorem save_message_broadcast_excludes_sender_witness :
    msgAllFromA.to_ = MessageAddress.All ∧
    (∀ g ∈ sessionABC.sequence, (alookup sessionABC.user_states g).isSome) ∧
    sessionABC.sequence.Nodup ∧
    (sessionABC.save_message msgAllFromA).2 = false ∧
    alookup ((sessionABC.save_message msgAllFromA).1).user_states "B" =
      some { updates := [], awaiting_messages := [msgAllFromA] } ∧
    alookup ((sessionABC.save_message msgAllFromA).1).user_states "C" =
      some { updates := [], awaiting_messages := [msgAllFromA] } ∧
    alookup ((sessionABC.save_message msgAllFromA).1).user_states "A" =
      some { updates := [], awaiting_messages := [] } := by
  refine ⟨rfl, by decide, by decide,
    (save_message_broadcast_excludes_sender sessionABC msgAllFromA rfl (by decide)
      (by decide)).1, ?_, ?_, ?_⟩
  · rw [(save_message_broadcast_excludes_sender sessionABC msgAllFromA rfl (by decide)
      (by decide)).2 "B"]
    decide
  · rw [(save_message_broadcast_excludes_sender sessionABC msgAllFromA rfl (by decide)
      (by decide)).2 "C"]
    decide
  · rw [(save_message_broadcast_excludes_sender sessionABC msgAllFromA rfl (by decide)
      (by decide)).2 "A"]
    decide

/-- Claim C10: on every reachable session the key set of the per-gamer
state map equals the participant sequence (one record per participant,
none for a non-participant), so the lookup in the `All` branch of
`save_message` always succeeds (panic flag `false`). -/
theorem reachable_keys_eq_participants (ops : List Operation) (sid : SessionIdType)
    (s : GameSession) (h : alookup (execOps initialWorld ops).sessions sid = some s) :
    s.user_states.map Prod.fst = s.sequence ∧
    s.sequence.Nodup ∧
    (∀ g, (alookup s.user_states g).isSome ↔ g ∈ s.sequence) ∧
    ∀ msg, msg.to_ = MessageAddress.All → (s.save_message msg).2 = false := by
  obtain ⟨hkeys, hnd, hne, hlt⟩ := execOps_initial_inv ops sid s h
  refine ⟨hkeys, hnd, fun g => by rw [alookup_isSome_iff_mem, hkeys], ?_⟩
  intro msg hto
  simp only [GameSession.save_message, hto]
  apply saveMessageAll_no_panic
  intro g hg
  rw [alookup_isSome_iff_mem, hkeys]
  exact hg

/-- Witness for C10 after a single join, instantiated at gamer `"a"` and
a concrete broadcast message. -/
theorem reachable_keys_eq_participants_witness :
    alookup (execOps initialWorld [Operation.JoinSession "s" "a"]).sessions "s" =
      some sessionA ∧
    sessionA.user_states.map Prod.fst = sessionA.sequence ∧
    sessionA.sequence.Nodup ∧
    ((alookup sessionA.user_states "a").isSome ↔ "a" ∈ sessionA.sequence) ∧
    (msgAllFromA.to_ = MessageAddress.All →
      (sessionA.save_message msgAllFromA).2 = false) := by
  have h := reachable_keys_eq_participants [Operation.JoinSession "s" "a"] "s"
    sessionA (by decide)
  exact ⟨by decide, h.1, h.2.1, h.2.2.1 "a", fun hto => h.2.2.2 msgAllFromA hto⟩
